import Mathlib

/-!
# Task-and-reward tracker — shallow embedding and verification

This file embeds the server endpoint logic of the task/reward tracker
(`src/server/index.js`) in Lean and proves properties of the
task-completion and reward-ledger state machine.

Modelling conventions:
* JS numbers arriving in request bodies are modelled as `Int` after parsing;
  a missing or unparseable value (`parseInt` returning `NaN`) is `none` in an
  `Option Int` input, so `parseInt(x) || 0` becomes `Option.getD · 0`
  (`parseInt` returning `0` also yields `0` through `|| 0`, which agrees).
* The document collections are association structures: `tasks` is a list of
  `TaskDoc` documents, `users` a list of `(userId, User)` pairs.  `findOne`
  returns the first match, `updateOne` updates the first match, matching the
  document-store semantics for the unique-key layouts the server uses.
* `uuidv4()` is modelled as a fresh-id supply: the state carries `nextId`,
  and each creation consumes it.  ISO timestamps are modelled as `Nat` ticks
  supplied by the caller of an operation.
* `$inc` with `upsert: true` on a missing user document creates the document
  with the incremented fields at their increment values and every other
  counter reading as `0` (the server normalises missing counter fields to
  `0` via `Number(x) || 0`), i.e. the increment applied to the zeroed user.
-/

/-- A Task document as stored in the `tasks` collection
(`POST /api/tasks` construction in `src/server/index.js`). -/
structure TaskDoc where
  id : Nat
  userId : String
  description : String
  reward : Int
  timeReward : Int
  completed : Bool
  createdAt : Nat
  completedAt : Option Nat
  deriving DecidableEq, Repr

/-- A User document of the reward ledger: cumulative counters
(`getOrCreateUser` in `src/server/index.js`). -/
structure User where
  totalEarned : Int
  totalUsed : Int
  timeEarned : Int
  timeUsed : Int
  tasksCompleted : Int
  deriving DecidableEq, Repr

/-- The freshly created zeroed user record. -/
def zeroUser : User :=
  { totalEarned := 0, totalUsed := 0, timeEarned := 0, timeUsed := 0, tasksCompleted := 0 }

/-- The server state: both collections plus the fresh-id supply standing in
for `uuidv4()`. -/
structure ServerState where
  tasks : List TaskDoc
  users : List (String × User)
  nextId : Nat
  deriving DecidableEq, Repr

/-- The initial state: empty collections. -/
def initState : ServerState := { tasks := [], users := [], nextId := 0 }

/-- `users.findOne({ _id: userId })`: first entry with the given key. -/
def findUser : List (String × User) → String → Option User
  | [], _ => none
  | (k, u) :: rest, uid => if k = uid then some u else findUser rest uid

/-- `tasks.findOne({ _id: taskId })`: first task with the given id. -/
def findTaskById : List TaskDoc → Nat → Option TaskDoc
  | [], _ => none
  | t :: ts, tid => if t.id = tid then some t else findTaskById ts tid

/-- `tasks.findOne({ _id: taskId, userId })`: first task matching id and owner. -/
def findTaskByIdUser : List TaskDoc → Nat → String → Option TaskDoc
  | [], _, _ => none
  | t :: ts, tid, uid =>
      if t.id = tid ∧ t.userId = uid then some t else findTaskByIdUser ts tid uid

/-- `users.updateOne({ _id: uid }, ...)` without upsert: rewrite the first
entry with the given key by `f`; no effect when the key is absent. -/
def updateUserFirst : List (String × User) → String → (User → User) → List (String × User)
  | [], _, _ => []
  | (k, u) :: rest, uid, f =>
      if k = uid then (k, f u) :: rest else (k, u) :: updateUserFirst rest uid f

/-- `users.updateOne({ _id: uid }, { $inc: ... }, { upsert: true })`:
update the first entry with the key, or create the document from the
increment applied to the zeroed record. -/
def updateUserUpsert (users : List (String × User)) (uid : String) (f : User → User) :
    List (String × User) :=
  match findUser users uid with
  | some _ => updateUserFirst users uid f
  | none => users ++ [(uid, f zeroUser)]

/-- `tasks.updateOne({ _id: tid }, { $set: { completed: true, completedAt } })`:
mark the first task with the given id completed. -/
def markCompletedFirst : List TaskDoc → Nat → Nat → List TaskDoc
  | [], _, _ => []
  | t :: ts, tid, now =>
      if t.id = tid then { t with completed := true, completedAt := some now } :: ts
      else t :: markCompletedFirst ts tid now

/-- Helper `getOrCreateUser(userId)`: return the stored record, or insert and
return the zeroed record.  (The server also re-normalises each counter via
`Number(x) || 0`; on the integer counters of this model that is the
identity.) -/
def getOrCreateUser (s : ServerState) (uid : String) : User × ServerState :=
  match findUser s.users uid with
  | some u => (u, s)
  | none => (zeroUser, { s with users := s.users ++ [(uid, zeroUser)] })

/-- Outcome of `GET /api/tasks`: always the filtered task list, never an
error (the only failure path is a store exception, outside this model). -/
def listTasks (s : ServerState) (uid : String) : List TaskDoc :=
  s.tasks.filter (fun t => t.userId = uid)

/-- Outcome of `POST /api/tasks`. -/
inductive CreateResult where
  | missingDescription
  | zeroRewards
  | created (task : TaskDoc)
  deriving DecidableEq, Repr

/-- `POST /api/tasks`: coerce rewards (`parseInt(x) || 0`), require a
non-empty description, reject when both coerced rewards are `≤ 0`, otherwise
store and return the new task. -/
def createTask (s : ServerState) (description : String) (reward timeReward : Option Int)
    (uid : String) (now : Nat) : CreateResult × ServerState :=
  let pointReward := reward.getD 0
  let timeRewardValue := timeReward.getD 0
  if description = "" then (.missingDescription, s)
  else if pointReward ≤ 0 ∧ timeRewardValue ≤ 0 then (.zeroRewards, s)
  else
    let newTask : TaskDoc :=
      { id := s.nextId, userId := uid, description := description,
        reward := pointReward, timeReward := timeRewardValue,
        completed := false, createdAt := now, completedAt := none }
    (.created newTask, { s with tasks := s.tasks ++ [newTask], nextId := s.nextId + 1 })

/-- The credit step of task completion: always `$inc` `tasksCompleted` by 1,
and `$inc` each earned counter only when the corresponding reward is
strictly positive. -/
def applyCredit (u : User) (reward timeReward : Int) : User :=
  { u with
    tasksCompleted := u.tasksCompleted + 1,
    totalEarned := if reward > 0 then u.totalEarned + reward else u.totalEarned,
    timeEarned := if timeReward > 0 then u.timeEarned + timeReward else u.timeEarned }

/-- Outcome of `POST /api/tasks/:id/complete`.  The success payload is the
result of the final `findOne` re-read, kept as an `Option` exactly as the
handler returns it. -/
inductive CompleteResult where
  | notFound
  | alreadyCompleted
  | completedOk (task : Option TaskDoc)
  deriving DecidableEq, Repr

/-- `POST /api/tasks/:id/complete`: look up by id and owner, reject when
absent or already completed, otherwise mark completed, credit the user
(upsert), and re-read the task. -/
def completeTask (s : ServerState) (tid : Nat) (uid : String) (now : Nat) :
    CompleteResult × ServerState :=
  match findTaskByIdUser s.tasks tid uid with
  | none => (.notFound, s)
  | some task =>
    if task.completed then (.alreadyCompleted, s)
    else
      let tasks1 := markCompletedFirst s.tasks tid now
      let users1 := updateUserUpsert s.users uid
        (fun u => applyCredit u task.reward task.timeReward)
      (.completedOk (findTaskById tasks1 tid), { s with tasks := tasks1, users := users1 })

/-- Outcome of `POST /api/rewards/use` and `POST /api/rewards/use-time`. -/
inductive SpendResult where
  | invalidAmount
  | insufficient (balance requested : Int)
  | spent (amount newBalance : Int)
  deriving DecidableEq, Repr

/-- `POST /api/rewards/use`: reject `!amount || amount <= 0` (on integers:
`amount ≤ 0`), get or create the user, reject when the point balance is
below the amount, otherwise `$inc` `totalUsed` by the amount. -/
def spendPoints (s : ServerState) (uid : String) (amount : Int) :
    SpendResult × ServerState :=
  if amount ≤ 0 then (.invalidAmount, s)
  else
    let (user, s1) := getOrCreateUser s uid
    let balance := user.totalEarned - user.totalUsed
    if balance < amount then (.insufficient balance amount, s1)
    else
      let users1 := updateUserFirst s1.users uid
        (fun u => { u with totalUsed := u.totalUsed + amount })
      (.spent amount (balance - amount), { s1 with users := users1 })

/-- `POST /api/rewards/use-time`: the identical rule against the time
balance and `timeUsed`. -/
def spendTime (s : ServerState) (uid : String) (minutes : Int) :
    SpendResult × ServerState :=
  if minutes ≤ 0 then (.invalidAmount, s)
  else
    let (user, s1) := getOrCreateUser s uid
    let timeBalance := user.timeEarned - user.timeUsed
    if timeBalance < minutes then (.insufficient timeBalance minutes, s1)
    else
      let users1 := updateUserFirst s1.users uid
        (fun u => { u with timeUsed := u.timeUsed + minutes })
      (.spent minutes (timeBalance - minutes), { s1 with users := users1 })

/-- The summary payload of `GET /api/rewards/summary`. -/
structure Summary where
  totalEarned : Int
  totalUsed : Int
  balance : Int
  tasksCompleted : Int
  timeEarned : Int
  timeUsed : Int
  timeBalance : Int
  deriving DecidableEq, Repr

/-- `GET /api/rewards/summary`: get or create the user, report the counters
and both derived balances. -/
def summary (s : ServerState) (uid : String) : Summary × ServerState :=
  let (u, s1) := getOrCreateUser s uid
  ({ totalEarned := u.totalEarned, totalUsed := u.totalUsed,
     balance := u.totalEarned - u.totalUsed,
     tasksCompleted := u.tasksCompleted,
     timeEarned := u.timeEarned, timeUsed := u.timeUsed,
     timeBalance := u.timeEarned - u.timeUsed }, s1)

/-- The point balance the ledger derives for a user: `totalEarned - totalUsed`
of the stored record, `0` when the record does not exist yet (a fresh record
is zeroed). -/
def pointBalanceOf (s : ServerState) (uid : String) : Int :=
  match findUser s.users uid with
  | some u => u.totalEarned - u.totalUsed
  | none => 0

/-- The time balance the ledger derives for a user. -/
def timeBalanceOf (s : ServerState) (uid : String) : Int :=
  match findUser s.users uid with
  | some u => u.timeEarned - u.timeUsed
  | none => 0

/-- The user record as every read path sees it: the stored record, or the
zeroed record when absent. -/
def userOf (s : ServerState) (uid : String) : User :=
  (findUser s.users uid).getD zeroUser

/-- One inbound request against the state (ignoring the response). -/
inductive Op where
  | createOp (description : String) (reward timeReward : Option Int) (uid : String) (now : Nat)
  | completeOp (tid : Nat) (uid : String) (now : Nat)
  | spendPointsOp (uid : String) (amount : Int)
  | spendTimeOp (uid : String) (minutes : Int)
  | summaryOp (uid : String)
  | getOrCreateOp (uid : String)
  | listOp (uid : String)
  deriving Repr

/-- The state transition of one request. -/
def step (s : ServerState) : Op → ServerState
  | .createOp d r tr uid now => (createTask s d r tr uid now).2
  | .completeOp tid uid now => (completeTask s tid uid now).2
  | .spendPointsOp uid a => (spendPoints s uid a).2
  | .spendTimeOp uid m => (spendTime s uid m).2
  | .summaryOp uid => (summary s uid).2
  | .getOrCreateOp uid => (getOrCreateUser s uid).2
  | .listOp _ => s

/-- Run a sequence of requests from a state. -/
def run (s : ServerState) : List Op → ServerState
  | [] => s
  | op :: ops => run (step s op) ops

/-! ## Lookup and update lemmas for the users collection -/

theorem findUser_append (us l : List (String × User)) (uid : String) :
    findUser (us ++ l) uid =
      match findUser us uid with
      | some u => some u
      | none => findUser l uid := by
  induction us with
  | nil => simp [findUser]
  | cons p rest ih =>
    obtain ⟨k, u⟩ := p
    by_cases h : k = uid <;> simp [findUser, h, ih]

theorem findUser_updateUserFirst_self (us : List (String × User)) (uid : String)
    (f : User → User) :
    findUser (updateUserFirst us uid f) uid = (findUser us uid).map f := by
  induction us with
  | nil => simp [findUser, updateUserFirst]
  | cons p rest ih =>
    obtain ⟨k, u⟩ := p
    by_cases h : k = uid <;> simp [findUser, updateUserFirst, h, ih]

theorem findUser_updateUserFirst_other (us : List (String × User)) (uid k : String)
    (f : User → User) (hk : k ≠ uid) :
    findUser (updateUserFirst us uid f) k = findUser us k := by
  induction us with
  | nil => simp [updateUserFirst]
  | cons p rest ih =>
    obtain ⟨k1, u⟩ := p
    by_cases h : k1 = uid
    · subst h
      simp [findUser, updateUserFirst, Ne.symm hk]
    · simp [findUser, updateUserFirst, h, ih]

theorem findUser_upsert_self (us : List (String × User)) (uid : String) (f : User → User) :
    findUser (updateUserUpsert us uid f) uid = some (f ((findUser us uid).getD zeroUser)) := by
  unfold updateUserUpsert
  cases h : findUser us uid with
  | some u => simp [findUser_updateUserFirst_self, h]
  | none => simp [findUser_append, h, findUser]

theorem findUser_upsert_other (us : List (String × User)) (uid k : String)
    (f : User → User) (hk : k ≠ uid) :
    findUser (updateUserUpsert us uid f) k = findUser us k := by
  unfold updateUserUpsert
  cases h : findUser us uid with
  | some u => simp [findUser_updateUserFirst_other us uid k f hk]
  | none =>
    rw [findUser_append]
    cases h2 : findUser us k with
    | some u => simp
    | none => simp [findUser, Ne.symm hk]

theorem getOrCreateUser_spec (s : ServerState) (uid : String) :
    (getOrCreateUser s uid).1 = userOf s uid ∧
    findUser (getOrCreateUser s uid).2.users uid = some (userOf s uid) ∧
    (getOrCreateUser s uid).2.tasks = s.tasks ∧
    (getOrCreateUser s uid).2.nextId = s.nextId ∧
    (∀ k, k ≠ uid → findUser (getOrCreateUser s uid).2.users k = findUser s.users k) := by
  unfold getOrCreateUser userOf
  cases h : findUser s.users uid with
  | some u => simp [h]
  | none =>
    refine ⟨by simp [h], ?_, rfl, rfl, ?_⟩
    · simp [findUser_append, h, findUser]
    · intro k hk
      rw [findUser_append]
      cases h2 : findUser s.users k with
      | some u => simp
      | none => simp [findUser, Ne.symm hk]

/-! ## Lookup and update lemmas for the tasks collection -/

theorem findTaskById_markCompletedFirst (ts : List TaskDoc) (tid now : Nat) :
    findTaskById (markCompletedFirst ts tid now) tid =
      (findTaskById ts tid).map
        (fun t => { t with completed := true, completedAt := some now }) := by
  induction ts with
  | nil => simp [findTaskById, markCompletedFirst]
  | cons t rest ih =>
    by_cases h : t.id = tid <;> simp [findTaskById, markCompletedFirst, h, ih]

theorem findTaskById_markCompletedFirst_other (ts : List TaskDoc) (tid tid2 now : Nat)
    (h : tid2 ≠ tid) :
    findTaskById (markCompletedFirst ts tid now) tid2 = findTaskById ts tid2 := by
  induction ts with
  | nil => simp [markCompletedFirst]
  | cons t rest ih =>
    by_cases h1 : t.id = tid
    · subst h1
      simp [findTaskById, markCompletedFirst, Ne.symm h]
    · simp [findTaskById, markCompletedFirst, h1, ih]

theorem findTaskByIdUser_of_findTaskById (ts : List TaskDoc) (tid : Nat) (uid : String)
    (t : TaskDoc) (h : findTaskById ts tid = some t) (hu : t.userId = uid) :
    findTaskByIdUser ts tid uid = some t := by
  induction ts with
  | nil => simp [findTaskById] at h
  | cons t1 rest ih =>
    by_cases h1 : t1.id = tid
    · simp [findTaskById, h1] at h
      subst h
      simp [findTaskByIdUser, h1, hu]
    · simp [findTaskById, h1] at h
      simp [findTaskByIdUser, h1, ih h]

theorem findTaskById_of_mem_unique (ts : List TaskDoc) (t : TaskDoc)
    (huniq : ts.Pairwise (fun a b => a.id ≠ b.id)) (hmem : t ∈ ts) :
    findTaskById ts t.id = some t := by
  induction ts with
  | nil => simp at hmem
  | cons t1 rest ih =>
    rcases List.mem_cons.mp hmem with h | h
    · subst h
      simp [findTaskById]
    · have hne : t1.id ≠ t.id := (List.pairwise_cons.mp huniq).1 t h
      simp [findTaskById, hne, ih (List.pairwise_cons.mp huniq).2 h]

/-! ## Balance and summary lemmas -/

theorem pointBalanceOf_eq (s : ServerState) (uid : String) :
    pointBalanceOf s uid = (userOf s uid).totalEarned - (userOf s uid).totalUsed := by
  unfold pointBalanceOf userOf
  cases h : findUser s.users uid with
  | some u => simp
  | none => simp [zeroUser]

theorem timeBalanceOf_eq (s : ServerState) (uid : String) :
    timeBalanceOf s uid = (userOf s uid).timeEarned - (userOf s uid).timeUsed := by
  unfold timeBalanceOf userOf
  cases h : findUser s.users uid with
  | some u => simp
  | none => simp [zeroUser]

theorem summary_eq (s : ServerState) (uid : String) :
    (summary s uid).1 =
      { totalEarned := (userOf s uid).totalEarned, totalUsed := (userOf s uid).totalUsed,
        balance := pointBalanceOf s uid, tasksCompleted := (userOf s uid).tasksCompleted,
        timeEarned := (userOf s uid).timeEarned, timeUsed := (userOf s uid).timeUsed,
        timeBalance := timeBalanceOf s uid } := by
  unfold summary
  rcases hG : getOrCreateUser s uid with ⟨u1, s1⟩
  have hspec := getOrCreateUser_spec s uid
  rw [hG] at hspec
  simp only at hspec
  rw [pointBalanceOf_eq, timeBalanceOf_eq, ← hspec.1]

/-! ## C4 — conditional credit of the earned counters -/

/-- C4: completing a pending task always increments `tasksCompleted` by 1,
increments `totalEarned` (points earned) by the task's point reward only
when that reward is strictly positive, increments `timeEarned` by the time
reward only when that reward is strictly positive, and never touches the
used counters; in particular for a task with `reward = 0` and
`timeReward = 5` the time counter gains 5, the point counter is unchanged,
and the completion still counts. -/
theorem completeTask_credit_conditional (s : ServerState) (t : TaskDoc) (now : Nat)
    (huniq : s.tasks.Pairwise (fun a b => a.id ≠ b.id))
    (hmem : t ∈ s.tasks) (hnc : t.completed = false) :
    (userOf (completeTask s t.id t.userId now).2 t.userId).tasksCompleted
      = (userOf s t.userId).tasksCompleted + 1 ∧
    (userOf (completeTask s t.id t.userId now).2 t.userId).totalEarned
      = (if t.reward > 0 then (userOf s t.userId).totalEarned + t.reward
         else (userOf s t.userId).totalEarned) ∧
    (userOf (completeTask s t.id t.userId now).2 t.userId).timeEarned
      = (if t.timeReward > 0 then (userOf s t.userId).timeEarned + t.timeReward
         else (userOf s t.userId).timeEarned) ∧
    (userOf (completeTask s t.id t.userId now).2 t.userId).totalUsed
      = (userOf s t.userId).totalUsed ∧
    (userOf (completeTask s t.id t.userId now).2 t.userId).timeUsed
      = (userOf s t.userId).timeUsed ∧
    (t.reward = 0 ∧ t.timeReward = 5 →
      (userOf (completeTask s t.id t.userId now).2 t.userId).timeEarned
          = (userOf s t.userId).timeEarned + 5 ∧
      (userOf (completeTask s t.id t.userId now).2 t.userId).totalEarned
          = (userOf s t.userId).totalEarned) := by
  have hfind : findTaskByIdUser s.tasks t.id t.userId = some t :=
    findTaskByIdUser_of_findTaskById _ _ _ _ (findTaskById_of_mem_unique _ _ huniq hmem) rfl
  have huser : userOf (completeTask s t.id t.userId now).2 t.userId
      = applyCredit (userOf s t.userId) t.reward t.timeReward := by
    unfold completeTask
    rw [hfind]
    simp only [hnc, Bool.false_eq_true, if_false]
    unfold userOf
    rw [findUser_upsert_self]
    rfl
  refine ⟨?_, ?_, ?_, ?_, ?_, ?_⟩ <;> rw [huser] <;> unfold applyCredit <;> simp
  intro h0 h5
  rw [h0, h5]
  norm_num

/-- Witness for C4: completing the stored pending task
`{reward = 0, timeReward = 5}` on a concrete one-task state. -/
theorem completeTask_credit_conditional_witness :
    (([({ id := 0, userId := "alice", description := "Stretch", reward := 0,
          timeReward := 5, completed := false, createdAt := 0,
          completedAt := none } : TaskDoc)] : List TaskDoc).Pairwise
        (fun a b => a.id ≠ b.id)) ∧
    (userOf (completeTask
        { tasks := [{ id := 0, userId := "alice", description := "Stretch", reward := 0,
                      timeReward := 5, completed := false, createdAt := 0,
                      completedAt := none }],
          users := [], nextId := 1 } 0 "alice" 3).2 "alice").timeEarned
      = (userOf
        { tasks := [{ id := 0, userId := "alice", description := "Stretch", reward := 0,
                      timeReward := 5, completed := false, createdAt := 0,
                      completedAt := none }],
          users := [], nextId := 1 } "alice").timeEarned + 5 := by
  refine ⟨by decide, ?_⟩
  have h := completeTask_credit_conditional
    { tasks := [{ id := 0, userId := "alice", description := "Stretch", reward := 0,
                  timeReward := 5, completed := false, createdAt := 0,
                  completedAt := none }],
      users := [], nextId := 1 }
    { id := 0, userId := "alice", description := "Stretch", reward := 0,
      timeReward := 5, completed := false, createdAt := 0, completedAt := none }
    3 (by decide) (by decide) (by decide)
  exact (h.2.2.2.2.2 ⟨rfl, rfl⟩).1

/-! ## C9 — validation of non-positive spend amounts -/

/-- C9: `POST /api/rewards/use` rejects any amount `≤ 0` and
`POST /api/rewards/use-time` rejects any minutes value `≤ 0`, both before
touching any document: the state is returned unchanged, so no counter is
modified. -/
theorem spend_rejects_nonpositive (s : ServerState) (uid : String) (amount minutes : Int)
    (ha : amount ≤ 0) (hm : minutes ≤ 0) :
    spendPoints s uid amount = (.invalidAmount, s) ∧
    spendTime s uid minutes = (.invalidAmount, s) := by
  unfold spendPoints spendTime
  simp [ha, hm]

/-- Witness for C9: a zero amount and negative minutes on a concrete state. -/
theorem spend_rejects_nonpositive_witness :
    ((0 : Int) ≤ 0) ∧ ((-3 : Int) ≤ 0) ∧
    spendPoints initState "alice" 0 = (.invalidAmount, initState) ∧
    spendTime initState "alice" (-3) = (.invalidAmount, initState) := by
  have h := spend_rejects_nonpositive initState "alice" 0 (-3) (by decide) (by decide)
  exact ⟨by decide, by decide, h.1, h.2⟩

/-! ## C10 — failed completion writes nothing -/

/-- C10: whenever `POST /api/tasks/:id/complete` fails with the not-found or
already-completed error, the whole state — the task documents and every
user's counters — is returned unchanged: both rejections happen before any
write. -/
theorem completeTask_fail_no_write (s : ServerState) (tid : Nat) (uid : String) (now : Nat)
    (h : (completeTask s tid uid now).1 = .notFound ∨
         (completeTask s tid uid now).1 = .alreadyCompleted) :
    (completeTask s tid uid now).2 = s := by
  cases hf : findTaskByIdUser s.tasks tid uid with
  | none =>
    unfold completeTask
    rw [hf]
  | some task =>
    by_cases hc : task.completed
    · unfold completeTask
      rw [hf]
      simp [hc]
    · exfalso
      unfold completeTask at h
      rw [hf] at h
      simp [hc] at h

/-- Witness for C10: completing an absent task id on a concrete state. -/
theorem completeTask_fail_no_write_witness :
    ((completeTask initState 7 "alice" 1).1 = .notFound ∨
     (completeTask initState 7 "alice" 1).1 = .alreadyCompleted) ∧
    (completeTask initState 7 "alice" 1).2 = initState := by
  refine ⟨Or.inl (by decide), completeTask_fail_no_write initState 7 "alice" 1 (Or.inl (by decide))⟩

/-! ## C7 — task listing filters exactly by owner -/

/-- C7: `GET /api/tasks` returns exactly the task documents whose `userId`
is the requested user — a task is in the listing precisely when it is stored
and owned by that user — and returns the empty list, never an error, when
the user owns no stored task. -/
theorem listTasks_exact (s : ServerState) (uid : String) (t : TaskDoc) :
    (t ∈ listTasks s uid ↔ t ∈ s.tasks ∧ t.userId = uid) ∧
    ((∀ t2 ∈ s.tasks, t2.userId ≠ uid) → listTasks s uid = []) := by
  constructor
  · simp [listTasks, List.mem_filter]
  · intro h
    simp only [listTasks, List.filter_eq_nil_iff]
    intro a ha
    simpa using h a ha

/-- Witness for C7: a two-task store where "bob" owns nothing. -/
theorem listTasks_exact_witness :
    (({ id := 0, userId := "alice", description := "Read", reward := 1, timeReward := 0,
        completed := false, createdAt := 0, completedAt := none } : TaskDoc)
      ∈ listTasks
        { tasks := [{ id := 0, userId := "alice", description := "Read", reward := 1,
                      timeReward := 0, completed := false, createdAt := 0,
                      completedAt := none }],
          users := [], nextId := 1 } "alice") ∧
    listTasks
        { tasks := [{ id := 0, userId := "alice", description := "Read", reward := 1,
                      timeReward := 0, completed := false, createdAt := 0,
                      completedAt := none }],
          users := [], nextId := 1 } "bob" = [] := by
  have h1 := listTasks_exact
    { tasks := [{ id := 0, userId := "alice", description := "Read", reward := 1,
                  timeReward := 0, completed := false, createdAt := 0,
                  completedAt := none }],
      users := [], nextId := 1 } "alice"
    { id := 0, userId := "alice", description := "Read", reward := 1, timeReward := 0,
      completed := false, createdAt := 0, completedAt := none }
  have h2 := listTasks_exact
    { tasks := [{ id := 0, userId := "alice", description := "Read", reward := 1,
                  timeReward := 0, completed := false, createdAt := 0,
                  completedAt := none }],
      users := [], nextId := 1 } "bob"
    { id := 0, userId := "alice", description := "Read", reward := 1, timeReward := 0,
      completed := false, createdAt := 0, completedAt := none }
  exact ⟨h1.1.mpr ⟨by decide, rfl⟩, h2.2 (by decide)⟩

/-! ## C2 — overdraft attempts fail and change nothing -/

/-- C2: whenever the requested amount exceeds the user's point balance,
`POST /api/rewards/use` never reaches the spend branch: the point balance
and `totalUsed` are unchanged by the call, and — the balance being
non-negative, as the data model requires and every operation preserves —
the reported failure is exactly the insufficient-balance error carrying the
current balance and the requested amount. -/
theorem spendPoints_overdraft_fails (s : ServerState) (uid : String) (amount : Int)
    (hgt : pointBalanceOf s uid < amount) :
    (∀ a b, (spendPoints s uid amount).1 ≠ SpendResult.spent a b) ∧
    pointBalanceOf (spendPoints s uid amount).2 uid = pointBalanceOf s uid ∧
    (userOf (spendPoints s uid amount).2 uid).totalUsed = (userOf s uid).totalUsed ∧
    (0 ≤ pointBalanceOf s uid →
      (spendPoints s uid amount).1
        = SpendResult.insufficient (pointBalanceOf s uid) amount) := by
  by_cases ha : amount ≤ 0
  · have hres : spendPoints s uid amount = (.invalidAmount, s) := by
      unfold spendPoints
      simp [ha]
    rw [hres]
    refine ⟨by simp, rfl, rfl, ?_⟩
    intro hb
    exact absurd (lt_of_le_of_lt hb hgt) (not_lt.mpr ha)
  · rcases hG : getOrCreateUser s uid with ⟨u1, s1⟩
    have hspec := getOrCreateUser_spec s uid
    rw [hG] at hspec
    simp only at hspec
    have hbal : u1.totalEarned - u1.totalUsed = pointBalanceOf s uid := by
      rw [hspec.1, pointBalanceOf_eq]
    have hres : spendPoints s uid amount
        = (.insufficient (pointBalanceOf s uid) amount, s1) := by
      unfold spendPoints
      rw [hG]
      simp only [ha, if_false, hbal]
      simp [hgt]
    rw [hres]
    have huser : userOf s1 uid = userOf s uid := by
      unfold userOf
      rw [hspec.1] at hspec
      rw [hspec.2.1]
      rfl
    refine ⟨by simp, ?_, by rw [huser], fun _ => rfl⟩
    rw [pointBalanceOf_eq, pointBalanceOf_eq, huser]

/-- Witness for C2: requesting 15 points against a balance of 10. -/
theorem spendPoints_overdraft_fails_witness :
    pointBalanceOf
        { tasks := [],
          users := [("alice", { totalEarned := 10, totalUsed := 0, timeEarned := 0,
                                timeUsed := 0, tasksCompleted := 1 })],
          nextId := 0 } "alice" < 15 ∧
    (spendPoints
        { tasks := [],
          users := [("alice", { totalEarned := 10, totalUsed := 0, timeEarned := 0,
                                timeUsed := 0, tasksCompleted := 1 })],
          nextId := 0 } "alice" 15).1 = SpendResult.insufficient 10 15 ∧
    pointBalanceOf (spendPoints
        { tasks := [],
          users := [("alice", { totalEarned := 10, totalUsed := 0, timeEarned := 0,
                                timeUsed := 0, tasksCompleted := 1 })],
          nextId := 0 } "alice" 15).2 "alice" = 10 := by
  have h := spendPoints_overdraft_fails
    { tasks := [],
      users := [("alice", { totalEarned := 10, totalUsed := 0, timeEarned := 0,
                            timeUsed := 0, tasksCompleted := 1 })],
      nextId := 0 } "alice" 15 (by decide)
  refine ⟨by decide, ?_, ?_⟩
  · have h4 := h.2.2.2 (by decide)
    simpa using h4
  · simpa using h.2.1

/-! ## C5 — successful spends debit exactly the amount -/

/-- C5: for `0 < amount ≤ pointBalance` the spend succeeds, reports
`spent = amount` and `newBalance = pointBalance - amount`, increments
`totalUsed` by exactly the amount, and a subsequent summary reports a point
balance strictly smaller than before by exactly the amount. -/
theorem spendPoints_success_debits (s : ServerState) (uid : String) (amount : Int)
    (h0 : 0 < amount) (hle : amount ≤ pointBalanceOf s uid) :
    (spendPoints s uid amount).1
      = SpendResult.spent amount (pointBalanceOf s uid - amount) ∧
    (userOf (spendPoints s uid amount).2 uid).totalUsed
      = (userOf s uid).totalUsed + amount ∧
    (summary (spendPoints s uid amount).2 uid).1.balance
      = pointBalanceOf s uid - amount ∧
    (summary (spendPoints s uid amount).2 uid).1.balance < pointBalanceOf s uid := by
  have ha : ¬ amount ≤ 0 := not_le.mpr h0
  rcases hG : getOrCreateUser s uid with ⟨u1, s1⟩
  have hspec := getOrCreateUser_spec s uid
  rw [hG] at hspec
  simp only at hspec
  have hbal : u1.totalEarned - u1.totalUsed = pointBalanceOf s uid := by
    rw [hspec.1, pointBalanceOf_eq]
  have hnlt : ¬ u1.totalEarned - u1.totalUsed < amount := by
    rw [hbal]
    exact not_lt.mpr hle
  have hres : spendPoints s uid amount
      = (.spent amount (pointBalanceOf s uid - amount),
         { s1 with users :=
            (updateUserFirst s1.users uid
              fun u => { u with totalUsed := u.totalUsed + amount }) }) := by
    unfold spendPoints
    rw [hG]
    simp only [ha, if_false, hnlt, hbal]
    simp [not_lt.mpr hle]
  have hfind1 : findUser s1.users uid = some (userOf s uid) := hspec.2.1
  have hfind2 : findUser (updateUserFirst s1.users uid
      (fun u => { u with totalUsed := u.totalUsed + amount })) uid
      = some { userOf s uid with totalUsed := (userOf s uid).totalUsed + amount } := by
    rw [findUser_updateUserFirst_self, hfind1]
    rfl
  have huser2 : userOf (spendPoints s uid amount).2 uid
      = { userOf s uid with totalUsed := (userOf s uid).totalUsed + amount } := by
    rw [hres]
    unfold userOf
    simp only
    rw [hfind2]
    rfl
  have hbal2 : pointBalanceOf (spendPoints s uid amount).2 uid
      = pointBalanceOf s uid - amount := by
    rw [pointBalanceOf_eq, huser2, pointBalanceOf_eq]
    simp only
    ring
  refine ⟨by rw [hres], by rw [huser2], ?_, ?_⟩
  · rw [summary_eq]
    simp only
    exact hbal2
  · rw [summary_eq]
    simp only
    rw [hbal2]
    omega

/-- Witness for C5: spending 10 points against a balance of 10. -/
theorem spendPoints_success_debits_witness :
    ((0 : Int) < 10) ∧
    (10 : Int) ≤ pointBalanceOf
        { tasks := [],
          users := [("alice", { totalEarned := 10, totalUsed := 0, timeEarned := 15,
                                timeUsed := 0, tasksCompleted := 1 })],
          nextId := 0 } "alice" ∧
    (spendPoints
        { tasks := [],
          users := [("alice", { totalEarned := 10, totalUsed := 0, timeEarned := 15,
                                timeUsed := 0, tasksCompleted := 1 })],
          nextId := 0 } "alice" 10).1 = SpendResult.spent 10 0 := by
  have h := spendPoints_success_debits
    { tasks := [],
      users := [("alice", { totalEarned := 10, totalUsed := 0, timeEarned := 15,
                            timeUsed := 0, tasksCompleted := 1 })],
      nextId := 0 } "alice" 10 (by decide) (by decide)
  refine ⟨by decide, by decide, ?_⟩
  simpa using h.1

/-! ## C6 — reward coercion at task creation -/

/-- C6 counterexample: a creation request with a non-empty description and
missing rewards (both coerce to 0) is rejected, not accepted: the handler
fails the request whenever both coerced rewards are non-positive. -/
theorem createTask_missing_rewards_fail_cex :
    ("Chore" : String) ≠ "" ∧
    createTask initState "Chore" none none "alice" 0
      = (CreateResult.zeroRewards, initState) := by
  exact ⟨by decide, rfl⟩

/-- C6 amended: with a non-empty description, invalid or missing reward
inputs coerce to 0 and negative integer inputs are kept as given; the
request fails with the validation error exactly when both coerced rewards
are non-positive, and otherwise succeeds with the stored task's rewards
equal to the coerced inputs. -/
theorem createTask_coercion (s : ServerState) (d : String) (r tr : Option Int)
    (uid : String) (now : Nat) (hd : d ≠ "") :
    (r.getD 0 ≤ 0 ∧ tr.getD 0 ≤ 0 → createTask s d r tr uid now = (.zeroRewards, s)) ∧
    (¬(r.getD 0 ≤ 0 ∧ tr.getD 0 ≤ 0) →
      ∃ t, createTask s d r tr uid now
          = (.created t, { s with tasks := s.tasks ++ [t], nextId := s.nextId + 1 }) ∧
        t.reward = r.getD 0 ∧ t.timeReward = tr.getD 0 ∧ t.completed = false) := by
  unfold createTask
  simp only [if_neg hd]
  constructor
  · intro h
    simp [h]
  · intro h
    refine ⟨{ id := s.nextId, userId := uid, description := d, reward := r.getD 0,
              timeReward := tr.getD 0, completed := false, createdAt := now,
              completedAt := none }, ?_, rfl, rfl, rfl⟩
    simp [h]

/-- Witness for C6 amended: a present point reward of 3 and a missing time
reward — the time reward coerces to 0 and the task is stored. -/
theorem createTask_coercion_witness :
    ("Walk" : String) ≠ "" ∧
    ¬((some (3 : Int)).getD 0 ≤ 0 ∧ (none : Option Int).getD 0 ≤ 0) ∧
    ∃ t, createTask initState "Walk" (some 3) none "alice" 0
        = (.created t,
           { initState with tasks := initState.tasks ++ [t],
                            nextId := initState.nextId + 1 }) ∧
      t.reward = (some (3 : Int)).getD 0 ∧ t.timeReward = (none : Option Int).getD 0 ∧
      t.completed = false := by
  have h := createTask_coercion initState "Walk" (some 3) none "alice" 0 (by decide)
  exact ⟨by decide, by decide, h.2 (by decide)⟩

/-! ## C8 — new tasks are pending and carry a fresh id -/

/-- Every stored task id is below the fresh-id supply. -/
def IdsFresh (s : ServerState) : Prop := ∀ t ∈ s.tasks, t.id < s.nextId

theorem markCompletedFirst_map_id (ts : List TaskDoc) (tid now : Nat) :
    (markCompletedFirst ts tid now).map (fun t => t.id) = ts.map (fun t => t.id) := by
  induction ts with
  | nil => rfl
  | cons t rest ih =>
    by_cases h : t.id = tid <;> simp [markCompletedFirst, h, ih]

theorem spendPoints_tasks_nextId (s : ServerState) (uid : String) (a : Int) :
    (spendPoints s uid a).2.tasks = s.tasks ∧ (spendPoints s uid a).2.nextId = s.nextId := by
  unfold spendPoints
  rcases hG : getOrCreateUser s uid with ⟨u1, s1⟩
  have hspec := getOrCreateUser_spec s uid
  rw [hG] at hspec
  simp only at hspec
  by_cases ha : a ≤ 0
  · simp [ha]
  · simp only [ha, if_false]
    split
    · exact ⟨hspec.2.2.1, hspec.2.2.2.1⟩
    · exact ⟨hspec.2.2.1, hspec.2.2.2.1⟩

theorem spendTime_tasks_nextId (s : ServerState) (uid : String) (a : Int) :
    (spendTime s uid a).2.tasks = s.tasks ∧ (spendTime s uid a).2.nextId = s.nextId := by
  unfold spendTime
  rcases hG : getOrCreateUser s uid with ⟨u1, s1⟩
  have hspec := getOrCreateUser_spec s uid
  rw [hG] at hspec
  simp only at hspec
  by_cases ha : a ≤ 0
  · simp [ha]
  · simp only [ha, if_false]
    split
    · exact ⟨hspec.2.2.1, hspec.2.2.2.1⟩
    · exact ⟨hspec.2.2.1, hspec.2.2.2.1⟩

theorem completeTask_tasks_nextId (s : ServerState) (tid : Nat) (uid : String) (now : Nat) :
    ((completeTask s tid uid now).2.tasks.map (fun t => t.id) = s.tasks.map (fun t => t.id)) ∧
    (completeTask s tid uid now).2.nextId = s.nextId := by
  unfold completeTask
  cases hf : findTaskByIdUser s.tasks tid uid with
  | none => exact ⟨rfl, rfl⟩
  | some task =>
    by_cases hc : task.completed
    · simp [hc]
    · simp [hc, markCompletedFirst_map_id]

theorem step_idsFresh (s : ServerState) (op : Op) (h : IdsFresh s) : IdsFresh (step s op) := by
  cases op with
  | createOp d r tr uid now =>
    show IdsFresh (createTask s d r tr uid now).2
    unfold createTask
    by_cases h1 : d = ""
    · simpa [h1] using h
    · by_cases h2 : r.getD 0 ≤ 0 ∧ tr.getD 0 ≤ 0
      · simpa [h1, h2] using h
      · simp only [if_neg h1, if_neg h2]
        intro t ht
        simp only [List.mem_append, List.mem_singleton] at ht
        rcases ht with ht | ht
        · exact lt_trans (h t ht) (Nat.lt_succ_self _)
        · rw [ht]
          exact Nat.lt_succ_self _
  | completeOp tid uid now =>
    have he := completeTask_tasks_nextId s tid uid now
    show IdsFresh (completeTask s tid uid now).2
    intro t ht
    have : t.id ∈ (completeTask s tid uid now).2.tasks.map (fun t2 => t2.id) :=
      List.mem_map_of_mem _ ht
    rw [he.1] at this
    rcases List.mem_map.mp this with ⟨t0, ht0, hid⟩
    rw [he.2, ← hid]
    exact h t0 ht0
  | spendPointsOp uid a =>
    have he := spendPoints_tasks_nextId s uid a
    show IdsFresh (spendPoints s uid a).2
    intro t ht
    rw [he.1] at ht
    rw [he.2]
    exact h t ht
  | spendTimeOp uid a =>
    have he := spendTime_tasks_nextId s uid a
    show IdsFresh (spendTime s uid a).2
    intro t ht
    rw [he.1] at ht
    rw [he.2]
    exact h t ht
  | summaryOp uid =>
    show IdsFresh (summary s uid).2
    unfold summary getOrCreateUser
    cases hf : findUser s.users uid with
    | some u => exact h
    | none => exact h
  | getOrCreateOp uid =>
    show IdsFresh (getOrCreateUser s uid).2
    unfold getOrCreateUser
    cases hf : findUser s.users uid with
    | some u => exact h
    | none => exact h
  | listOp uid => exact h

theorem run_idsFresh (s : ServerState) (ops : List Op) (h : IdsFresh s) :
    IdsFresh (run s ops) := by
  induction ops generalizing s with
  | nil => exact h
  | cons op rest ih => exact ih (step s op) (step_idsFresh s op h)

/-- C8: on any state reachable from the empty store, a successful creation
returns a task whose `completed` field is `false` and whose id differs from
the id of every task created before it. -/
theorem createTask_pending_fresh_id (ops : List Op) (d : String) (r tr : Option Int)
    (uid : String) (now : Nat) (t : TaskDoc) (s2 : ServerState)
    (h : createTask (run initState ops) d r tr uid now = (.created t, s2)) :
    t.completed = false ∧ ∀ t2 ∈ (run initState ops).tasks, t2.id ≠ t.id := by
  have hfresh : IdsFresh (run initState ops) := by
    apply run_idsFresh
    intro t2 ht2
    simp [initState] at ht2
  unfold createTask at h
  by_cases h1 : d = ""
  · simp [h1] at h
  · by_cases h2 : r.getD 0 ≤ 0 ∧ tr.getD 0 ≤ 0
    · simp [h1, h2] at h
    · simp only [if_neg h1, if_neg h2, Prod.mk.injEq, CreateResult.created.injEq] at h
      obtain ⟨ht, _⟩ := h
      constructor
      · rw [← ht]
      · intro t2 ht2
        have hlt := hfresh t2 ht2
        rw [← ht]
        exact Nat.ne_of_lt hlt

/-- Witness for C8: the first creation on the empty store. -/
theorem createTask_pending_fresh_id_witness :
    (∃ t s2, createTask (run initState []) "Read" (some 10) (some 15) "alice" 0
        = (.created t, s2) ∧ t.completed = false ∧
        ∀ t2 ∈ (run initState []).tasks, t2.id ≠ t.id) := by
  refine ⟨{ id := 0, userId := "alice", description := "Read", reward := 10,
            timeReward := 15, completed := false, createdAt := 0, completedAt := none },
          _, rfl, ?_⟩
  have h := createTask_pending_fresh_id [] "Read" (some 10) (some 15) "alice" 0
    { id := 0, userId := "alice", description := "Read", reward := 10,
      timeReward := 15, completed := false, createdAt := 0, completedAt := none }
    { tasks := [{ id := 0, userId := "alice", description := "Read", reward := 10,
                  timeReward := 15, completed := false, createdAt := 0,
                  completedAt := none }],
      users := [], nextId := 1 } rfl
  exact h

/-! ## C1 — completion credits once, then is rejected -/

/-- The state reached by creating a task with a negative point reward and a
positive time reward — accepted by the creation validation, which only
rejects the case where both coerced rewards are non-positive. -/
def negRewardState : ServerState :=
  (createTask initState "Read" (some (-5)) (some 10) "alice" 0).2

/-- C1 counterexample: the stored task with `reward = -5` is pending, its
completion succeeds, but the resulting point balance is `0`, not the
pre-completion balance plus the task's point reward (`0 + (-5) = -5`): the
credit step skips non-positive rewards, so the balance equation of the
claim fails for a task with a negative point reward. -/
theorem completeTask_negative_reward_cex :
    (findTaskById negRewardState.tasks 0).map (fun t => (t.completed, t.reward))
      = some (false, -5) ∧
    pointBalanceOf (completeTask negRewardState 0 "alice" 1).2 "alice" = 0 ∧
    pointBalanceOf (completeTask negRewardState 0 "alice" 1).2 "alice"
      ≠ pointBalanceOf negRewardState "alice" + (-5) := by
  exact ⟨rfl, by decide, by decide⟩

/-- C1 amended: for every stored pending task with non-negative rewards
(owner's id supplied), the first completion succeeds, returns the completed
task, raises the owner's point and time balances by exactly the task's
rewards, and a second completion of the same id fails with the
already-completed error leaving the state unchanged.  (A negative reward is
skipped by the credit step, so the balance equations require non-negative
rewards.) -/
theorem completeTask_once_then_rejected (s : ServerState) (t : TaskDoc) (now now2 : Nat)
    (huniq : s.tasks.Pairwise (fun a b => a.id ≠ b.id))
    (hmem : t ∈ s.tasks) (hnc : t.completed = false)
    (hrp : 0 ≤ t.reward) (hrt : 0 ≤ t.timeReward) :
    (completeTask s t.id t.userId now).1
      = CompleteResult.completedOk
          (some { t with completed := true, completedAt := some now }) ∧
    pointBalanceOf (completeTask s t.id t.userId now).2 t.userId
      = pointBalanceOf s t.userId + t.reward ∧
    timeBalanceOf (completeTask s t.id t.userId now).2 t.userId
      = timeBalanceOf s t.userId + t.timeReward ∧
    completeTask (completeTask s t.id t.userId now).2 t.id t.userId now2
      = (CompleteResult.alreadyCompleted, (completeTask s t.id t.userId now).2) := by
  have hfindid : findTaskById s.tasks t.id = some t :=
    findTaskById_of_mem_unique _ _ huniq hmem
  have hfind : findTaskByIdUser s.tasks t.id t.userId = some t :=
    findTaskByIdUser_of_findTaskById _ _ _ _ hfindid rfl
  have hstate : completeTask s t.id t.userId now
      = (.completedOk (some { t with completed := true, completedAt := some now }),
         { s with tasks := markCompletedFirst s.tasks t.id now,
                  users := (updateUserUpsert s.users t.userId
                    fun u => applyCredit u t.reward t.timeReward) }) := by
    unfold completeTask
    rw [hfind]
    simp only [hnc, Bool.false_eq_true, if_false]
    rw [findTaskById_markCompletedFirst, hfindid]
    rfl
  have huser : userOf (completeTask s t.id t.userId now).2 t.userId
      = applyCredit (userOf s t.userId) t.reward t.timeReward := by
    rw [hstate]
    unfold userOf
    simp only
    rw [findUser_upsert_self]
    rfl
  refine ⟨by rw [hstate], ?_, ?_, ?_⟩
  · rw [pointBalanceOf_eq, pointBalanceOf_eq, huser]
    unfold applyCredit
    simp only
    by_cases hp : t.reward > 0
    · simp only [hp, if_true]
      ring
    · have h0 : t.reward = 0 := le_antisymm (not_lt.mp hp) hrp
      simp [hp, h0]
  · rw [timeBalanceOf_eq, timeBalanceOf_eq, huser]
    unfold applyCredit
    simp only
    by_cases hp : t.timeReward > 0
    · simp only [hp, if_true]
      ring
    · have h0 : t.timeReward = 0 := le_antisymm (not_lt.mp hp) hrt
      simp [hp, h0]
  · have hfind2 : findTaskByIdUser (markCompletedFirst s.tasks t.id now) t.id t.userId
        = some { t with completed := true, completedAt := some now } := by
      apply findTaskByIdUser_of_findTaskById
      · rw [findTaskById_markCompletedFirst, hfindid]
        rfl
      · rfl
    rw [hstate]
    unfold completeTask
    simp only
    rw [hfind2]
    rfl

/-- Witness for C1 amended: the concrete one-task state with rewards 10/15. -/
theorem completeTask_once_then_rejected_witness :
    (([({ id := 0, userId := "alice", description := "Read a book", reward := 10,
          timeReward := 15, completed := false, createdAt := 0,
          completedAt := none } : TaskDoc)] : List TaskDoc).Pairwise
        (fun a b => a.id ≠ b.id)) ∧
    pointBalanceOf (completeTask
        { tasks := [{ id := 0, userId := "alice", description := "Read a book",
                      reward := 10, timeReward := 15, completed := false,
                      createdAt := 0, completedAt := none }],
          users := [], nextId := 1 } 0 "alice" 3).2 "alice"
      = pointBalanceOf
        { tasks := [{ id := 0, userId := "alice", description := "Read a book",
                      reward := 10, timeReward := 15, completed := false,
                      createdAt := 0, completedAt := none }],
          users := [], nextId := 1 } "alice" + 10 ∧
    (completeTask (completeTask
        { tasks := [{ id := 0, userId := "alice", description := "Read a book",
                      reward := 10, timeReward := 15, completed := false,
                      createdAt := 0, completedAt := none }],
          users := [], nextId := 1 } 0 "alice" 3).2 0 "alice" 4).1
      = CompleteResult.alreadyCompleted := by
  have h := completeTask_once_then_rejected
    { tasks := [{ id := 0, userId := "alice", description := "Read a book",
                  reward := 10, timeReward := 15, completed := false,
                  createdAt := 0, completedAt := none }],
      users := [], nextId := 1 }
    { id := 0, userId := "alice", description := "Read a book", reward := 10,
      timeReward := 15, completed := false, createdAt := 0, completedAt := none }
    3 4 (by decide) (by decide) (by decide) (by decide) (by decide)
  refine ⟨by decide, ?_, ?_⟩
  · simpa using h.2.1
  · rw [h.2.2.2]

/-! ## C3 — ledger counters: non-negative, monotone, balances never overdrawn -/

/-- The data-model invariant of one user record: all five counters are
non-negative and neither derived balance is negative. -/
def UserOK (u : User) : Prop :=
  0 ≤ u.totalEarned ∧ 0 ≤ u.totalUsed ∧ 0 ≤ u.timeEarned ∧ 0 ≤ u.timeUsed ∧
  0 ≤ u.tasksCompleted ∧ u.totalUsed ≤ u.totalEarned ∧ u.timeUsed ≤ u.timeEarned

/-- The invariant over the whole store: every stored user record is `UserOK`. -/
def StateOK (s : ServerState) : Prop :=
  ∀ uid u, findUser s.users uid = some u → UserOK u

/-- Pointwise order on the five cumulative counters. -/
def UserLE (u v : User) : Prop :=
  u.totalEarned ≤ v.totalEarned ∧ u.totalUsed ≤ v.totalUsed ∧
  u.timeEarned ≤ v.timeEarned ∧ u.timeUsed ≤ v.timeUsed ∧
  u.tasksCompleted ≤ v.tasksCompleted

/-- Monotonicity of one transition: every user record present before is
still present afterwards with counters at least as large. -/
def UsersMono (s s2 : ServerState) : Prop :=
  ∀ uid u, findUser s.users uid = some u →
    ∃ v, findUser s2.users uid = some v ∧ UserLE u v

theorem userLE_refl (u : User) : UserLE u u := by
  unfold UserLE
  omega

theorem userLE_trans (u v w : User) (h1 : UserLE u v) (h2 : UserLE v w) : UserLE u w := by
  unfold UserLE at *
  omega

theorem userOK_zero : UserOK zeroUser :=
  ⟨le_refl 0, le_refl 0, le_refl 0, le_refl 0, le_refl 0, le_refl 0, le_refl 0⟩

theorem userOK_applyCredit (u : User) (r tr : Int) (h : UserOK u) :
    UserOK (applyCredit u r tr) := by
  unfold UserOK applyCredit at *
  by_cases hr : r > 0 <;> by_cases htr : tr > 0 <;>
    simp only [hr, htr, if_true, if_false] <;> omega

theorem userLE_applyCredit (u : User) (r tr : Int) : UserLE u (applyCredit u r tr) := by
  unfold UserLE applyCredit
  by_cases hr : r > 0 <;> by_cases htr : tr > 0 <;>
    simp only [hr, htr, if_true, if_false] <;> omega

theorem usersOK_updateFirst (us : List (String × User)) (uid : String) (f : User → User)
    (h : ∀ k u, findUser us k = some u → UserOK u)
    (hf : ∀ u, findUser us uid = some u → UserOK (f u)) :
    ∀ k u, findUser (updateUserFirst us uid f) k = some u → UserOK u := by
  intro k u hk
  by_cases hkeq : k = uid
  · subst hkeq
    rw [findUser_updateUserFirst_self] at hk
    cases h0 : findUser us k with
    | none =>
      rw [h0] at hk
      simp at hk
    | some u0 =>
      rw [h0] at hk
      simp at hk
      rw [← hk]
      exact hf u0 h0
  · rw [findUser_updateUserFirst_other us uid k f hkeq] at hk
    exact h k u hk

theorem usersMono_updateFirst (us : List (String × User)) (uid : String) (f : User → User)
    (hle : ∀ u, findUser us uid = some u → UserLE u (f u)) :
    ∀ k u, findUser us k = some u →
      ∃ v, findUser (updateUserFirst us uid f) k = some v ∧ UserLE u v := by
  intro k u hk
  by_cases hkeq : k = uid
  · subst hkeq
    refine ⟨f u, ?_, hle u hk⟩
    rw [findUser_updateUserFirst_self, hk]
    rfl
  · refine ⟨u, ?_, userLE_refl u⟩
    rw [findUser_updateUserFirst_other us uid k f hkeq]
    exact hk

theorem usersOK_upsert (us : List (String × User)) (uid : String) (f : User → User)
    (h : ∀ k u, findUser us k = some u → UserOK u)
    (hf : ∀ u, UserOK u → UserOK (f u)) :
    ∀ k u, findUser (updateUserUpsert us uid f) k = some u → UserOK u := by
  intro k u hk
  by_cases hkeq : k = uid
  · subst hkeq
    rw [findUser_upsert_self] at hk
    injection hk with hk2
    rw [← hk2]
    cases h0 : findUser us k with
    | none => exact hf zeroUser userOK_zero
    | some u0 => exact hf u0 (h k u0 h0)
  · rw [findUser_upsert_other us uid k f hkeq] at hk
    exact h k u hk

theorem usersMono_upsert (us : List (String × User)) (uid : String) (f : User → User)
    (hle : ∀ u, UserLE u (f u)) :
    ∀ k u, findUser us k = some u →
      ∃ v, findUser (updateUserUpsert us uid f) k = some v ∧ UserLE u v := by
  intro k u hk
  by_cases hkeq : k = uid
  · subst hkeq
    refine ⟨f u, ?_, hle u⟩
    rw [findUser_upsert_self, hk]
    rfl
  · refine ⟨u, ?_, userLE_refl u⟩
    rw [findUser_upsert_other us uid k f hkeq]
    exact hk

theorem usersOK_append_zero (us : List (String × User)) (uid : String)
    (h : ∀ k u, findUser us k = some u → UserOK u) :
    ∀ k u, findUser (us ++ [(uid, zeroUser)]) k = some u → UserOK u := by
  intro k u hk
  rw [findUser_append] at hk
  cases h0 : findUser us k with
  | some u0 =>
    rw [h0] at hk
    injection hk with hk2
    rw [← hk2]
    exact h k u0 h0
  | none =>
    rw [h0] at hk
    simp only at hk
    by_cases hkeq : uid = k
    · simp only [findUser, hkeq, if_true] at hk
      injection hk with hk2
      rw [← hk2]
      exact userOK_zero
    · simp [findUser, hkeq] at hk

theorem usersMono_append (us l : List (String × User)) :
    ∀ k u, findUser us k = some u →
      ∃ v, findUser (us ++ l) k = some v ∧ UserLE u v := by
  intro k u hk
  refine ⟨u, ?_, userLE_refl u⟩
  rw [findUser_append, hk]

/-- How `getOrCreateUser` changes the users collection. -/
theorem getOrCreateUser_users (s : ServerState) (uid : String) :
    (getOrCreateUser s uid).2.users = s.users ∨
    (getOrCreateUser s uid).2.users = s.users ++ [(uid, zeroUser)] := by
  unfold getOrCreateUser
  cases h : findUser s.users uid with
  | some u => exact Or.inl rfl
  | none => exact Or.inr rfl

theorem getOrCreate_ok_mono (s : ServerState) (h : StateOK s) (uid : String) :
    StateOK (getOrCreateUser s uid).2 ∧ UsersMono s (getOrCreateUser s uid).2 := by
  rcases getOrCreateUser_users s uid with hu | hu
  · constructor
    · intro k u hk
      rw [hu] at hk
      exact h k u hk
    · intro k u hk
      exact ⟨u, by rw [hu]; exact hk, userLE_refl u⟩
  · constructor
    · intro k u hk
      rw [hu] at hk
      exact usersOK_append_zero s.users uid h k u hk
    · intro k u hk
      rw [hu]
      exact usersMono_append s.users _ k u hk

theorem stateOK_refl_mono (s : ServerState) (h : StateOK s) :
    StateOK s ∧ UsersMono s s :=
  ⟨h, fun _ u hk => ⟨u, hk, userLE_refl u⟩⟩

theorem spendPoints_ok_mono (s : ServerState) (uid : String) (a : Int) (h : StateOK s) :
    StateOK (spendPoints s uid a).2 ∧ UsersMono s (spendPoints s uid a).2 := by
  by_cases ha : a ≤ 0
  · have hs : (spendPoints s uid a).2 = s := by
      unfold spendPoints
      simp [ha]
    rw [hs]
    exact stateOK_refl_mono s h
  · rcases hG : getOrCreateUser s uid with ⟨u1, s1⟩
    have hspec := getOrCreateUser_spec s uid
    rw [hG] at hspec
    simp only at hspec
    have hgoc := getOrCreate_ok_mono s h uid
    rw [hG] at hgoc
    simp only at hgoc
    obtain ⟨hok1, hmono1⟩ := hgoc
    by_cases hbal : u1.totalEarned - u1.totalUsed < a
    · have hs : (spendPoints s uid a).2 = s1 := by
        unfold spendPoints
        rw [hG]
        simp [ha, hbal]
      rw [hs]
      exact ⟨hok1, hmono1⟩
    · have hs : (spendPoints s uid a).2
          = { s1 with users :=
              (updateUserFirst s1.users uid
                fun u => { u with totalUsed := u.totalUsed + a }) } := by
        unfold spendPoints
        rw [hG]
        simp [ha, hbal]
      have hu1 : findUser s1.users uid = some u1 := by
        rw [hspec.1]
        exact hspec.2.1
      have hfok : ∀ u, findUser s1.users uid = some u →
          UserOK { u with totalUsed := u.totalUsed + a } := by
        intro u2 hu2
        rw [hu1] at hu2
        injection hu2 with hu2
        rw [← hu2]
        have hOK1 : UserOK u1 := hok1 uid u1 hu1
        unfold UserOK at *
        simp only
        omega
      have hfle : ∀ u, findUser s1.users uid = some u →
          UserLE u { u with totalUsed := u.totalUsed + a } := by
        intro u2 _
        unfold UserLE
        simp only
        omega
      constructor
      · intro k u hk
        rw [hs] at hk
        simp only at hk
        exact usersOK_updateFirst s1.users uid _ hok1 hfok k u hk
      · intro k u hk
        rw [hs]
        simp only
        obtain ⟨v, hv, hle⟩ := hmono1 k u hk
        obtain ⟨w, hw, hle2⟩ := usersMono_updateFirst s1.users uid _ hfle k v hv
        exact ⟨w, hw, userLE_trans u v w hle hle2⟩

theorem spendTime_ok_mono (s : ServerState) (uid : String) (a : Int) (h : StateOK s) :
    StateOK (spendTime s uid a).2 ∧ UsersMono s (spendTime s uid a).2 := by
  by_cases ha : a ≤ 0
  · have hs : (spendTime s uid a).2 = s := by
      unfold spendTime
      simp [ha]
    rw [hs]
    exact stateOK_refl_mono s h
  · rcases hG : getOrCreateUser s uid with ⟨u1, s1⟩
    have hspec := getOrCreateUser_spec s uid
    rw [hG] at hspec
    simp only at hspec
    have hgoc := getOrCreate_ok_mono s h uid
    rw [hG] at hgoc
    simp only at hgoc
    obtain ⟨hok1, hmono1⟩ := hgoc
    by_cases hbal : u1.timeEarned - u1.timeUsed < a
    · have hs : (spendTime s uid a).2 = s1 := by
        unfold spendTime
        rw [hG]
        simp [ha, hbal]
      rw [hs]
      exact ⟨hok1, hmono1⟩
    · have hs : (spendTime s uid a).2
          = { s1 with users :=
              (updateUserFirst s1.users uid
                fun u => { u with timeUsed := u.timeUsed + a }) } := by
        unfold spendTime
        rw [hG]
        simp [ha, hbal]
      have hu1 : findUser s1.users uid = some u1 := by
        rw [hspec.1]
        exact hspec.2.1
      have hfok : ∀ u, findUser s1.users uid = some u →
          UserOK { u with timeUsed := u.timeUsed + a } := by
        intro u2 hu2
        rw [hu1] at hu2
        injection hu2 with hu2
        rw [← hu2]
        have hOK1 : UserOK u1 := hok1 uid u1 hu1
        unfold UserOK at *
        simp only
        omega
      have hfle : ∀ u, findUser s1.users uid = some u →
          UserLE u { u with timeUsed := u.timeUsed + a } := by
        intro u2 _
        unfold UserLE
        simp only
        omega
      constructor
      · intro k u hk
        rw [hs] at hk
        simp only at hk
        exact usersOK_updateFirst s1.users uid _ hok1 hfok k u hk
      · intro k u hk
        rw [hs]
        simp only
        obtain ⟨v, hv, hle⟩ := hmono1 k u hk
        obtain ⟨w, hw, hle2⟩ := usersMono_updateFirst s1.users uid _ hfle k v hv
        exact ⟨w, hw, userLE_trans u v w hle hle2⟩

theorem step_ok_mono (s : ServerState) (op : Op) (h : StateOK s) :
    StateOK (step s op) ∧ UsersMono s (step s op) := by
  cases op with
  | createOp d r tr uid now =>
    show StateOK (createTask s d r tr uid now).2 ∧ UsersMono s (createTask s d r tr uid now).2
    have husers : (createTask s d r tr uid now).2.users = s.users := by
      unfold createTask
      by_cases h1 : d = ""
      · simp [h1]
      · by_cases h2 : r.getD 0 ≤ 0 ∧ tr.getD 0 ≤ 0 <;> simp [h1, h2]
    constructor
    · intro k u hk
      rw [husers] at hk
      exact h k u hk
    · intro k u hk
      exact ⟨u, by rw [husers]; exact hk, userLE_refl u⟩
  | completeOp tid uid now =>
    show StateOK (completeTask s tid uid now).2 ∧ UsersMono s (completeTask s tid uid now).2
    cases hf : findTaskByIdUser s.tasks tid uid with
    | none =>
      have hs : (completeTask s tid uid now).2 = s := by
        unfold completeTask
        rw [hf]
      rw [hs]
      exact stateOK_refl_mono s h
    | some task =>
      by_cases hc : task.completed
      · have hs : (completeTask s tid uid now).2 = s := by
          unfold completeTask
          rw [hf]
          simp [hc]
        rw [hs]
        exact stateOK_refl_mono s h
      · have hs : (completeTask s tid uid now).2.users
            = (updateUserUpsert s.users uid
                fun u => applyCredit u task.reward task.timeReward) := by
          unfold completeTask
          rw [hf]
          simp [hc]
        constructor
        · intro k u hk
          rw [hs] at hk
          exact usersOK_upsert s.users uid _ h
            (fun u2 hu2 => userOK_applyCredit u2 _ _ hu2) k u hk
        · intro k u hk
          rw [hs]
          exact usersMono_upsert s.users uid _
            (fun u2 => userLE_applyCredit u2 _ _) k u hk
  | spendPointsOp uid a => exact spendPoints_ok_mono s uid a h
  | spendTimeOp uid a => exact spendTime_ok_mono s uid a h
  | summaryOp uid =>
    show StateOK (summary s uid).2 ∧ UsersMono s (summary s uid).2
    have hs : (summary s uid).2 = (getOrCreateUser s uid).2 := by
      unfold summary
      rcases hG : getOrCreateUser s uid with ⟨u1, s1⟩
      rfl
    rw [hs]
    exact getOrCreate_ok_mono s h uid
  | getOrCreateOp uid =>
    exact getOrCreate_ok_mono s h uid
  | listOp uid => exact stateOK_refl_mono s h

theorem stateOK_init : StateOK initState := by
  intro k u hk
  simp [initState, findUser] at hk

theorem stateOK_run (s : ServerState) (ops : List Op) (h : StateOK s) :
    StateOK (run s ops) := by
  induction ops generalizing s with
  | nil => exact h
  | cons op rest ih => exact ih (step s op) (step_ok_mono s op h).1

/-- C3: starting from the empty store, after any sequence of requests every
stored user record has all five counters non-negative with neither derived
balance negative (`StateOK`, so no spend ever overdraws a balance), and any
further request leaves every existing user's counters in place and
non-decreasing (`UsersMono`). -/
theorem ledger_counters_invariant (ops : List Op) (op : Op) :
    StateOK (run initState ops) ∧
    UsersMono (run initState ops) (step (run initState ops) op) := by
  have h := stateOK_run initState ops stateOK_init
  exact ⟨h, (step_ok_mono (run initState ops) op h).2⟩
